import Mathlib

/-
Verification of the two modules of langchain-b12-public:
  * src/langchain_b12/citations/citations.py (citation pipeline)
  * langchain_genai/langchain_google.py (message-format converter)
Strings are modelled as lists of characters, Python exceptions as an
explicit error type, and the single LLM round-trip as a function-valued
parameter.
-/

set_option autoImplicit false

deriving instance DecidableEq for Except

namespace LangchainB12

/-- Characters of a Python string. -/
abbrev Str := List Char

/-- Bytes produced by base64 decoding, each value below 256. -/
abbrev Bytes := List Nat

/-- Whitespace characters recognised by Python's `str.strip` and the regex
class `\s`, restricted to ASCII. -/
def pyIsSpace (c : Char) : Bool :=
  c = ' ' || c = '\t' || c = '\n' || c = '\r' || c = Char.ofNat 11 || c = Char.ofNat 12

/-- Python `str.strip()`: drop whitespace from both ends. -/
def pyStrip (s : Str) : Str :=
  ((s.dropWhile pyIsSpace).reverse.dropWhile pyIsSpace).reverse

/-- Python `s.split(sep, 1)` when `sep` occurs in `s`: the parts before and
after the first occurrence; `none` when `sep` does not occur. -/
def splitOnce (sep : Char) : Str → Option (Str × Str)
  | [] => none
  | c :: rest =>
    if c = sep then some ([], rest)
    else (splitOnce sep rest).map (fun p => (c :: p.1, p.2))

/-- Python `str.rjust(w)` with spaces. -/
def rjust (w : Nat) (s : Str) : Str :=
  List.replicate (w - s.length) ' ' ++ s

/-- Python substring test `needle in haystack`: `needle` occurs contiguously
in `haystack` (the empty string occurs in everything). -/
def isSubstr (needle haystack : Str) : Bool :=
  haystack.tails.any fun t => needle.isPrefixOf t

/- ## citations.py -/

/-- A citation returned by the structured-output model: field `sentence_index`
is a Python `int` (possibly negative), `cited_text` and `key` are strings. -/
structure Citation where
  sentence_index : Int
  cited_text : Str
  key : Str
  deriving DecidableEq

/-- The structured output wrapper `Citations` holding a list of citations. -/
structure Citations where
  values : List Citation
  deriving DecidableEq

/-- The `CitationType` TypedDict: a citation as merged into content. -/
structure CitationType where
  cited_text : Str
  key : Str
  deriving DecidableEq

/-- The `ContentType` TypedDict: one sentence with its citations; the `type`
field always holds the string "text". -/
structure ContentType where
  citations : Option (List CitationType)
  text : Str
  type : Str
  deriving DecidableEq

/-- Content of a langchain `BaseMessage` as far as citations.py inspects it:
either a Python `str` or something else (a list of parts). -/
inductive CContent where
  | str (s : Str)
  | other
  deriving DecidableEq

/-- A langchain `BaseMessage` as used by citations.py: a role tag, content,
and an optional name. -/
structure CMessage where
  role : Str
  content : CContent
  name : Option Str
  deriving DecidableEq

/-- Sentence-final punctuation of the split regex `(?<=[.!?]) +`. -/
def isPunct (c : Char) : Bool :=
  c = '.' || c = '!' || c = '?'

/-- Worker for `re.split(r"(?<=[.!?]) +", text)`: scan left to right with the
accumulated current segment (reversed) in `acc`; at a space preceded by
sentence punctuation, emit the segment and drop the remaining spaces of the
run (`skip` is true while inside the run being dropped). -/
def splitAux : Str → Str → Bool → List Str
  | [], acc, _ => [acc.reverse]
  | c :: rest, acc, skip =>
    if skip && c = ' ' then
      splitAux rest acc true
    else if c = ' ' then
      match acc with
      | p :: accTail =>
        if isPunct p then (p :: accTail).reverse :: splitAux rest [] true
        else splitAux rest (c :: acc) false
      | [] => splitAux rest (c :: acc) false
    else
      splitAux rest (c :: acc) false

/-- `split_into_sentences`: strip the text and split it at runs of spaces
that follow `.`, `!` or `?`. -/
def split_into_sentences (text : Str) : List Str :=
  splitAux (pyStrip text) [] false

/-- Whether a match of the regex `<context\s+key=[^>]+>.*?</context>` (with
DOTALL) starts at the head of `s`. -/
def matchTagAt (s : Str) : Bool :=
  if ("<context".data).isPrefixOf s then
    let r1 := s.drop 8
    if r1.takeWhile pyIsSpace ≠ [] then
      let r2 := r1.dropWhile pyIsSpace
      if ("key=".data).isPrefixOf r2 then
        let r3 := r2.drop 4
        if r3.takeWhile (fun c => c ≠ '>') ≠ [] && r3.any (fun c => c = '>') then
          let r4 := (r3.dropWhile (fun c => c ≠ '>')).drop 1
          isSubstr ("</context>".data) r4
        else false
      else false
    else false
  else false

/-- `contains_context_tags`: the regex search succeeds somewhere in `text`. -/
def contains_context_tags (text : Str) : Bool :=
  text.tails.any matchTagAt

/-- Inner loop of `merge_citations`: the citations whose `sentence_index`
equals the given sentence index, in input order, as `CitationType`s. -/
def collectFor (citations : List Citation) (sentence_index : Nat) : List CitationType :=
  match citations with
  | [] => []
  | c :: rest =>
    if c.sentence_index = (sentence_index : Int) then
      ⟨c.cited_text, c.key⟩ :: collectFor rest sentence_index
    else
      collectFor rest sentence_index

/-- Outer loop of `merge_citations` over `enumerate(sentences)`, carrying the
current sentence index; `_citations or None` maps an empty list to `None`. -/
def mergeGo (citations : List Citation) : Nat → List Str → List ContentType
  | _, [] => []
  | i, s :: rest =>
    let cs := collectFor citations i
    ⟨if cs = [] then none else some cs, s, "text".data⟩ :: mergeGo citations (i + 1) rest

/-- `merge_citations`: one content item per sentence, each carrying the
citations that refer to it. -/
def merge_citations (sentences : List Str) (citations : Citations) : List ContentType :=
  mergeGo citations.values 0 sentences

/-- The string `"\n".join(str(msg.content) for msg in messages if
isinstance(msg.content, str))` from `validate_citations`. -/
def all_source_text (messages : List CMessage) : Str :=
  List.intercalate ['\n']
    (messages.filterMap fun m =>
      match m.content with
      | .str s => some s
      | .other => none)

/-- Loop of `validate_citations`: drop a citation whose index is out of range
or whose cited text is not a substring of the joined source text. -/
def validateGo (n_sentences : Nat) (all_text : Str) : List Citation → List Citation
  | [] => []
  | c :: rest =>
    if c.sentence_index < 0 || c.sentence_index ≥ (n_sentences : Int) then
      validateGo n_sentences all_text rest
    else if !(isSubstr c.cited_text all_text) then
      validateGo n_sentences all_text rest
    else
      c :: validateGo n_sentences all_text rest

/-- `validate_citations`: keep only citations with an in-range sentence index
whose cited text occurs verbatim in the concatenated source text. -/
def validate_citations (citations : Citations) (messages : List CMessage)
    (sentences : List Str) : Citations :=
  ⟨validateGo sentences.length (all_source_text messages) citations.values⟩

/-- The content of an `AIMessage` handled by `add_citations`: a plain string
before the call, a merged content list after. -/
inductive AIContent where
  | str (s : Str)
  | merged (l : List ContentType)
  deriving DecidableEq

/-- The incoming `AIMessage` of `add_citations`: string content and an
optional name. -/
structure AIMessageIn where
  content : Str
  name : Option Str
  deriving DecidableEq

/-- The numbered sentence listing `"\n".join(f"{str(i).rjust(num_width)}:
{sentence}" ...)` built by `add_citations`. -/
def numberSentences (sentences : List Str) : Str :=
  let num_width := (Nat.repr sentences.length).length
  List.intercalate ['\n']
    (sentences.enum.map fun p =>
      rjust num_width (Nat.repr p.1).data ++ ':' :: ' ' :: p.2)

/-- The message list `[system_message, *messages, numbered_message]` sent to
the citation model. -/
def mkCitationMessages (messages : List CMessage) (message : AIMessageIn)
    (system_prompt : Str) : List CMessage :=
  ⟨"system".data, .str system_prompt, none⟩ ::
    messages ++ [⟨"ai".data, .str (numberSentences (split_into_sentences message.content)), message.name⟩]

/-- `add_citations`, with the structured-output round-trip
`model.with_structured_output(Citations).ainvoke` passed in as the function
`model`; returns the content of the returned `AIMessage`. -/
def add_citations (model : List CMessage → Citations) (messages : List CMessage)
    (message : AIMessageIn) (system_prompt : Str) : AIContent :=
  if message.content = [] then
    .str message.content
  else if !(contains_context_tags message.content) then
    .str message.content
  else
    let sentences := split_into_sentences message.content
    let citations := model (mkCitationMessages messages message system_prompt)
    let citations := validate_citations citations messages sentences
    .merged (merge_citations sentences citations)

/- ## langchain_google.py -/

/-- Python exceptions that the converter can raise. -/
inductive PyError where
  | valueError
  | assertionError
  | indexError
  | binasciiError
  deriving DecidableEq

/-- The value of a standard base64 alphabet character, `none` otherwise. -/
def b64Val (c : Char) : Option Nat :=
  if 'A' ≤ c ∧ c ≤ 'Z' then some (c.toNat - 65)
  else if 'a' ≤ c ∧ c ≤ 'z' then some (c.toNat - 97 + 26)
  else if '0' ≤ c ∧ c ≤ '9' then some (c.toNat - 48 + 52)
  else if c = '+' then some 62
  else if c = '/' then some 63
  else none

/-- Decode one base64 quad into one, two, or three bytes, honouring `=`
padding in the last two positions. -/
def decodeQuad (a b c d : Char) : Option Bytes :=
  match b64Val a, b64Val b with
  | some va, some vb =>
    if c = '=' then
      if d = '=' then some [(va * 4 + vb / 16) % 256] else none
    else
      match b64Val c with
      | some vc =>
        if d = '=' then some [va * 4 + vb / 16, (vb % 16) * 16 + vc / 4]
        else
          match b64Val d with
          | some vd => some [va * 4 + vb / 16, (vb % 16) * 16 + vc / 4, (vc % 4) * 64 + vd]
          | none => none
      | none => none
  | _, _ => none

/-- Decode a run of base64 quads; padding is only legal in the final quad. -/
def b64Go : Str → Option Bytes
  | [] => some []
  | a :: b :: c :: d :: rest =>
    match decodeQuad a b c d with
    | some bs =>
      if (c = '=' || d = '=') && rest ≠ [] then none
      else (b64Go rest).map (bs ++ ·)
    | none => none
  | _ => none

/-- Python `base64.b64decode` (default validation): discard characters
outside the alphabet, then decode quads; `none` models `binascii.Error`. -/
def b64decode (s : Str) : Option Bytes :=
  b64Go (s.filter fun c => (b64Val c).isSome || c = '=')

/-- A `google.genai` `FunctionCall` part payload. -/
structure FunctionCall where
  name : Str
  args : List (Str × Str)
  id : Str
  deriving DecidableEq

/-- A `google.genai` `FunctionResponse` part payload; `response` is always
the dict `{"output": output}`. -/
structure FunctionResponse where
  id : Str
  name : Str
  output : Str
  deriving DecidableEq

/-- A `google.genai` `Part`: exactly one of its optional fields is set by the
converter, so it is modelled as a sum. -/
inductive Part where
  | text (t : Str)
  | inlineData (data : Bytes) (mime_type : Str)
  | fileData (file_uri : Str) (mime_type : Str)
  | functionCall (fc : FunctionCall)
  | functionResponse (fr : FunctionResponse)
  deriving DecidableEq

/-- A `google.genai` `Content`: a role string plus parts. `UserContent` is
role "user", `ModelContent` is role "model". -/
structure Content where
  role : Str
  parts : List Part
  deriving DecidableEq

/-- One dict of a multi-part message content list, by its `"type"` field;
`other` carries an unrecognised type string. -/
inductive ContentItem where
  | text (text : Str)
  | image_url (url : Str)
  | file (uri : Str) (mime_type : Str)
  | other (ty : Str)
  deriving DecidableEq

/-- The image branch of `multi_content_to_part`: split the data URL at the
first comma (unpacking fails with `ValueError` otherwise), take the part of
the header after the first colon and before the first semicolon as the mime
type, and base64-decode the payload. -/
def parseImagePart (url : Str) : Except PyError Part :=
  match splitOnce ',' url with
  | none => .error .valueError
  | some (header, encoded_data) =>
    match splitOnce ':' header with
    | none => .error .indexError
    | some (_, afterColon) =>
      let mime_type :=
        match splitOnce ';' afterColon with
        | some (before, _) => before
        | none => afterColon
      match b64decode encoded_data with
      | some data => .ok (.inlineData data mime_type)
      | none => .error .binasciiError

/-- `multi_content_to_part`: convert each content dict to its parts in order;
a text item with empty text contributes nothing, an unknown type raises
`ValueError`. -/
def multi_content_to_part : List ContentItem → Except PyError (List Part)
  | [] => .ok []
  | .text t :: rest =>
    if t ≠ [] then
      match multi_content_to_part rest with
      | .ok ps => .ok (.text t :: ps)
      | .error e => .error e
    else
      multi_content_to_part rest
  | .image_url url :: rest =>
    match parseImagePart url with
    | .ok p =>
      match multi_content_to_part rest with
      | .ok ps => .ok (p :: ps)
      | .error e => .error e
    | .error e => .error e
  | .file uri mime_type :: rest =>
    match multi_content_to_part rest with
    | .ok ps => .ok (.fileData uri mime_type :: ps)
    | .error e => .error e
  | .other _ :: _ => .error .valueError

/-- Content of a langchain `BaseMessage` as the converter inspects it: a
string, a list of content dicts, or something else. -/
inductive MsgContent where
  | str (s : Str)
  | list (items : List ContentItem)
  | other
  deriving DecidableEq

/-- `convert_base_message_to_parts`: a non-empty string becomes one text
part, an empty string none, a list is handled by `multi_content_to_part`,
anything else raises `ValueError`. -/
def convert_base_message_to_parts (content : MsgContent) : Except PyError (List Part) :=
  match content with
  | .str s => if s ≠ [] then .ok [.text s] else .ok []
  | .list items => multi_content_to_part items
  | .other => .error .valueError

/-- A langchain `ToolCall` dict: name, args, and an optional id. -/
structure ToolCall where
  name : Str
  args : List (Str × Str)
  id : Option Str
  deriving DecidableEq

/-- A langchain message as the converter dispatches on it: `HumanMessage`,
`AIMessage` (with tool calls), `ToolMessage`, or any other message class. -/
inductive GMessage where
  | human (content : MsgContent)
  | ai (content : MsgContent) (tool_calls : List ToolCall)
  | tool (content : MsgContent) (name : Option Str) (tool_call_id : Str)
  | other
  deriving DecidableEq

/-- The tool-call loop of the `AIMessage` branch: each tool call becomes one
function-call part; a missing or empty id fails the `assert tool_id`. -/
def toolCallParts : List ToolCall → Except PyError (List Part)
  | [] => .ok []
  | tc :: rest =>
    match tc.id with
    | some tid =>
      if tid ≠ [] then
        match toolCallParts rest with
        | .ok ps => .ok (.functionCall ⟨tc.name, tc.args, tid⟩ :: ps)
        | .error e => .error e
      else .error .assertionError
    | none => .error .assertionError

/-- `convert_messages_to_contents`: map each message to one `Content`,
raising `ValueError` on an unrecognised message class. -/
def convert_messages_to_contents : List GMessage → Except PyError (List Content)
  | [] => .ok []
  | .human content :: rest =>
    match convert_base_message_to_parts content with
    | .ok parts =>
      match convert_messages_to_contents rest with
      | .ok cs => .ok (⟨"user".data, parts⟩ :: cs)
      | .error e => .error e
    | .error e => .error e
  | .ai content tool_calls :: rest =>
    match convert_base_message_to_parts content with
    | .ok text_parts =>
      match toolCallParts tool_calls with
      | .ok function_parts =>
        match convert_messages_to_contents rest with
        | .ok cs => .ok (⟨"model".data, text_parts ++ function_parts⟩ :: cs)
        | .error e => .error e
      | .error e => .error e
    | .error e => .error e
  | .tool content name tool_call_id :: rest =>
    match content with
    | .str s =>
      match name with
      | some n =>
        if n ≠ [] then
          match convert_messages_to_contents rest with
          | .ok cs => .ok (⟨"function".data, [.functionResponse ⟨tool_call_id, n, s⟩]⟩ :: cs)
          | .error e => .error e
        else .error .assertionError
      | none => .error .assertionError
    | _ => .error .assertionError
  | .other :: _ => .error .valueError

/- ## Specification-side definitions used in the theorem statements -/

/-- A string ends with sentence punctuation. -/
def endsWithPunct (s : Str) : Bool :=
  match s.getLast? with
  | some c => isPunct c
  | none => false

/-- A content dict is well-formed: its type is recognised and, for an image,
its data URL parses and decodes. -/
def itemWF : ContentItem → Bool
  | .text _ => true
  | .image_url url =>
    match parseImagePart url with
    | .ok _ => true
    | .error _ => false
  | .file _ _ => true
  | .other _ => false

/-- The parts a single well-formed content dict contributes, as the claim
describes them. -/
def itemPartsSpec : ContentItem → List Part
  | .text t => if t = [] then [] else [.text t]
  | .image_url url =>
    match parseImagePart url with
    | .ok p => [p]
    | .error _ => []
  | .file uri mime_type => [.fileData uri mime_type]
  | .other _ => []

/-- The content of a message converts without an exception. -/
def cbmpOk (content : MsgContent) : Bool :=
  match convert_base_message_to_parts content with
  | .ok _ => true
  | .error _ => false

/-- The parts of a message content whose conversion succeeds. -/
def partsSpec (content : MsgContent) : List Part :=
  match convert_base_message_to_parts content with
  | .ok ps => ps
  | .error _ => []

/-- A tool call has a truthy id, as `assert tool_id` demands. -/
def toolIdOk (tc : ToolCall) : Bool :=
  match tc.id with
  | some tid => !tid.isEmpty
  | none => false

/-- A message is well-formed: its content converts and its asserts pass. -/
def messageWF : GMessage → Bool
  | .human content => cbmpOk content
  | .ai content tool_calls => cbmpOk content && tool_calls.all toolIdOk
  | .tool content name _ =>
    (match content with
      | .str _ => true
      | _ => false) &&
    (match name with
      | some n => !n.isEmpty
      | none => false)
  | .other => false

/-- The `Content` a well-formed message maps to, as the claim describes it:
a `HumanMessage` to a user content, an `AIMessage` to a model content whose
parts are its text parts followed by one function-call part per tool call,
and a `ToolMessage` to a function-role content with a single
function-response part. -/
def messageContentSpec : GMessage → Content
  | .human content => ⟨"user".data, partsSpec content⟩
  | .ai content tool_calls =>
    ⟨"model".data, partsSpec content ++
      tool_calls.map fun tc => .functionCall ⟨tc.name, tc.args, tc.id.getD []⟩⟩
  | .tool content name tool_call_id =>
    ⟨"function".data,
      [.functionResponse ⟨tool_call_id, name.getD [],
        match content with
        | .str s => s
        | _ => []⟩]⟩
  | .other => ⟨[], []⟩

/- ## Helper lemmas -/

theorem validateGo_eq_filter (n : Nat) (all_text : Str) (l : List Citation) :
    validateGo n all_text l = l.filter fun c =>
      decide (0 ≤ c.sentence_index) && decide (c.sentence_index < (n : Int)) &&
        isSubstr c.cited_text all_text := by
  induction l with
  | nil => rfl
  | cons c rest ih =>
    rw [validateGo, List.filter_cons, ih]
    by_cases h0 : 0 ≤ c.sentence_index
    · by_cases h1 : c.sentence_index < (n : Int)
      · have hg : (c.sentence_index < 0 || c.sentence_index ≥ (n : Int)) = false := by
          simp only [Bool.or_eq_false_iff, decide_eq_false_iff_not]
          omega
        by_cases hs : isSubstr c.cited_text all_text <;> simp [hg, h0, h1, hs]
      · have hg : (c.sentence_index < 0 || c.sentence_index ≥ (n : Int)) = true := by
          simp only [Bool.or_eq_true, decide_eq_true_eq]
          omega
        simp [hg, h1]
    · have hg : (c.sentence_index < 0 || c.sentence_index ≥ (n : Int)) = true := by
        simp only [Bool.or_eq_true, decide_eq_true_eq]
        omega
      simp [hg, h0]

theorem collectFor_eq_filter (cits : List Citation) (i : Nat) :
    collectFor cits i =
      (cits.filter fun c => decide (c.sentence_index = (i : Int))).map
        fun c => (⟨c.cited_text, c.key⟩ : CitationType) := by
  induction cits with
  | nil => rfl
  | cons c rest ih =>
    rw [collectFor, List.filter_cons]
    by_cases h : c.sentence_index = (i : Int) <;> simp [h, ih]

theorem mergeGo_length (cits : List Citation) (sents : List Str) (start : Nat) :
    (mergeGo cits start sents).length = sents.length := by
  induction sents generalizing start with
  | nil => rfl
  | cons s rest ih => simp [mergeGo, ih]

theorem mergeGo_getElem? (cits : List Citation) (sents : List Str) (start i : Nat) :
    (mergeGo cits start sents)[i]? = (sents[i]?).map fun s =>
      ⟨if collectFor cits (start + i) = [] then none else some (collectFor cits (start + i)),
        s, "text".data⟩ := by
  induction sents generalizing start i with
  | nil => simp [mergeGo]
  | cons s rest ih =>
    cases i with
    | zero => simp [mergeGo]
    | succ j =>
      have harith : start + 1 + j = start + (j + 1) := by omega
      simp only [mergeGo, List.getElem?_cons_succ, ih, harith]

theorem splitAux_cons (c : Char) (rest acc : Str) (skip : Bool) :
    splitAux (c :: rest) acc skip =
      if skip && c = ' ' then splitAux rest acc true
      else if c = ' ' then
        match acc with
        | p :: accTail =>
          if isPunct p then (p :: accTail).reverse :: splitAux rest [] true
          else splitAux rest (c :: acc) false
        | [] => splitAux rest (c :: acc) false
      else splitAux rest (c :: acc) false := by
  rw [splitAux.eq_def]

theorem splitAux_ne_nil (cs : Str) : ∀ (acc : Str) (skip : Bool), splitAux cs acc skip ≠ [] := by
  induction cs with
  | nil =>
    intro acc skip
    simp [splitAux]
  | cons c rest ih =>
    intro acc skip
    rw [splitAux_cons]
    split
    · exact ih acc true
    · split
      · cases acc with
        | nil => exact ih _ false
        | cons p accTail =>
          dsimp only
          split
          · simp
          · exact ih _ false
      · exact ih _ false

theorem splitAux_dropLast_punct (cs : Str) : ∀ (acc : Str) (skip : Bool),
    ∀ s ∈ (splitAux cs acc skip).dropLast, endsWithPunct s = true := by
  induction cs with
  | nil =>
    intro acc skip s hs
    simp [splitAux] at hs
  | cons c rest ih =>
    intro acc skip s hs
    rw [splitAux_cons] at hs
    split at hs
    · exact ih acc true s hs
    · split at hs
      · cases acc with
        | nil => exact ih _ false s hs
        | cons p accTail =>
          dsimp only at hs
          split at hs
          · rename_i hp
            rw [List.dropLast_cons_of_ne_nil (splitAux_ne_nil rest [] true),
              List.mem_cons] at hs
            rcases hs with hs | hs
            · subst hs
              simp [endsWithPunct, List.getLast?_reverse, hp]
            · exact ih _ true s hs
          · exact ih _ false s hs
      · exact ih _ false s hs

/- ## Claim theorems -/

/-- Claim C1: `validate_citations` returns exactly those input citations, in their
original order, whose `sentence_index` is at least 0 and strictly below the
number of sentences and whose `cited_text` is a literal substring of the
concatenated source text of the messages; every other citation is dropped and
kept citations are unmodified. -/
theorem validate_citations_spec (citations : Citations) (messages : List CMessage)
    (sentences : List Str) :
    (validate_citations citations messages sentences).values =
      citations.values.filter fun c =>
        decide (0 ≤ c.sentence_index) &&
          decide (c.sentence_index < (sentences.length : Int)) &&
          isSubstr c.cited_text (all_source_text messages) :=
  validateGo_eq_filter sentences.length (all_source_text messages) citations.values

/-- Claim C6: `merge_citations` returns one content item per sentence, in sentence
order, each of type "text" with the sentence's text unchanged, whose
citations field lists precisely the citations whose `sentence_index` equals
that sentence's position, in input citation order, or `none` when no
citation refers to that sentence. -/
theorem merge_citations_spec (sentences : List Str) (citations : Citations) :
    (merge_citations sentences citations).length = sentences.length ∧
    ∀ i : Nat, (merge_citations sentences citations)[i]? = (sentences[i]?).map fun s =>
      let cs := (citations.values.filter fun c => decide (c.sentence_index = (i : Int))).map
        fun c => (⟨c.cited_text, c.key⟩ : CitationType)
      ⟨if cs = [] then none else some cs, s, "text".data⟩ := by
  refine ⟨mergeGo_length citations.values sentences 0, fun i => ?_⟩
  have h := mergeGo_getElem? citations.values sentences 0 i
  rw [Nat.zero_add, collectFor_eq_filter] at h
  exact h

/-- Claim C7: `split_into_sentences` splits only at runs of spaces following `.`,
`!` or `?` in the stripped text: every returned sentence except possibly the
last ends with one of these punctuation marks, and the returned list is
never empty. -/
theorem split_into_sentences_spec (text : Str) :
    split_into_sentences text ≠ [] ∧
    ∀ s ∈ (split_into_sentences text).dropLast, endsWithPunct s = true :=
  ⟨splitAux_ne_nil (pyStrip text) [] false,
    splitAux_dropLast_punct (pyStrip text) [] false⟩

/-- Witness for claim C7: on a concrete two-sentence text the split is non-empty and
its non-final sentence ends with punctuation. -/
theorem split_into_sentences_spec_witness :
    split_into_sentences "Hi there. Bye".data ≠ [] ∧
      endsWithPunct "Hi there.".data = true :=
  ⟨(split_into_sentences_spec "Hi there. Bye".data).1,
    (split_into_sentences_spec "Hi there. Bye".data).2 "Hi there.".data (by decide)⟩

/-- Claim C5: `convert_base_message_to_parts` returns a single text part for
non-empty string content and the empty list for the empty string, never
raising on strings; returns exactly the parts of `multi_content_to_part`
for list content; and raises `ValueError` for content that is neither a
string nor a list. -/
theorem convert_base_message_to_parts_spec :
    (∀ s : Str, convert_base_message_to_parts (.str s) =
      .ok (if s = [] then [] else [.text s])) ∧
    (∀ items : List ContentItem,
      convert_base_message_to_parts (.list items) = multi_content_to_part items) ∧
    convert_base_message_to_parts .other = .error .valueError := by
  refine ⟨fun s => ?_, fun items => rfl, rfl⟩
  by_cases hs : s = [] <;> simp [convert_base_message_to_parts, hs]

theorem multi_content_to_part_eq_ok (items : List ContentItem)
    (h : ∀ i ∈ items, itemWF i = true) :
    multi_content_to_part items = .ok (items.flatMap itemPartsSpec) := by
  induction items with
  | nil => rfl
  | cons i rest ih =>
    have hi := h i (List.mem_cons_self i rest)
    have ihr := ih fun j hj => h j (List.mem_cons_of_mem i hj)
    cases i with
    | text t =>
      by_cases ht : t = [] <;>
        simp [multi_content_to_part, ht, ihr, itemPartsSpec]
    | image_url url =>
      cases hp : parseImagePart url with
      | ok p => simp [multi_content_to_part, hp, ihr, itemPartsSpec]
      | error e => simp [itemWF, hp] at hi
    | file uri mime_type =>
      simp [multi_content_to_part, ihr, itemPartsSpec]
    | other ty => simp [itemWF] at hi

theorem multi_content_to_part_unknown (items : List ContentItem)
    (h : ∀ i ∈ items, itemWF i = true) (ty : Str) (rest : List ContentItem) :
    multi_content_to_part (items ++ .other ty :: rest) = .error .valueError := by
  induction items with
  | nil => rfl
  | cons i items' ih =>
    have hi := h i (List.mem_cons_self i items')
    have ihr := ih fun j hj => h j (List.mem_cons_of_mem i hj)
    cases i with
    | text t =>
      by_cases ht : t = [] <;>
        simp [multi_content_to_part, ht, ihr]
    | image_url url =>
      cases hp : parseImagePart url with
      | ok p => simp [multi_content_to_part, hp, ihr]
      | error e => simp [itemWF, hp] at hi
    | file uri mime_type =>
      simp [multi_content_to_part, ihr]
    | other ty' => simp [itemWF] at hi

/-- Claim C4: on well-formed content dicts, `multi_content_to_part` turns each
text item with non-empty text into a text part, each image item into an
inline-bytes part with mime type and bytes parsed from its base64 data URL,
and each file item into a file-reference part, in item order; an item of any
other type raises `ValueError`. -/
theorem multi_content_to_part_spec (items : List ContentItem)
    (h : ∀ i ∈ items, itemWF i = true) :
    multi_content_to_part items = .ok (items.flatMap itemPartsSpec) ∧
    ∀ (ty : Str) (rest : List ContentItem),
      multi_content_to_part (items ++ .other ty :: rest) = .error .valueError :=
  ⟨multi_content_to_part_eq_ok items h,
    fun ty rest => multi_content_to_part_unknown items h ty rest⟩

/-- Witness for claim C4: a concrete well-formed list with a text, an image and a
file item converts to the three expected parts, and appending an unknown
item raises `ValueError`. -/
theorem multi_content_to_part_spec_witness :
    multi_content_to_part
        [.text "hi".data,
          .image_url "data:image/png;base64,QUJD".data,
          .file "gs://b/f".data "application/pdf".data] =
      .ok [.text "hi".data,
        .inlineData [65, 66, 67] "image/png".data,
        .fileData "gs://b/f".data "application/pdf".data] ∧
    multi_content_to_part
        [.text "hi".data,
          .image_url "data:image/png;base64,QUJD".data,
          .file "gs://b/f".data "application/pdf".data,
          .other "video".data] =
      .error .valueError := by
  have h := multi_content_to_part_spec
    [.text "hi".data,
      .image_url "data:image/png;base64,QUJD".data,
      .file "gs://b/f".data "application/pdf".data]
    (by decide)
  exact ⟨by rw [h.1]; decide, by
    have h2 := h.2 "video".data []
    simpa using h2⟩

theorem cbmpOk_ok {content : MsgContent} (h : cbmpOk content = true) :
    ∃ ps, convert_base_message_to_parts content = .ok ps := by
  unfold cbmpOk at h
  cases hc : convert_base_message_to_parts content with
  | ok ps => exact ⟨ps, rfl⟩
  | error e =>
    rw [hc] at h
    simp at h

theorem toolCallParts_eq_ok (tool_calls : List ToolCall)
    (h : ∀ tc ∈ tool_calls, toolIdOk tc = true) :
    toolCallParts tool_calls =
      .ok (tool_calls.map fun tc => .functionCall ⟨tc.name, tc.args, tc.id.getD []⟩) := by
  induction tool_calls with
  | nil => rfl
  | cons tc rest ih =>
    have htc := h tc (List.mem_cons_self tc rest)
    have ihr := ih fun x hx => h x (List.mem_cons_of_mem tc hx)
    cases hid : tc.id with
    | none => simp [toolIdOk, hid] at htc
    | some tid =>
      have htid : tid ≠ [] := by
        simp [toolIdOk, hid] at htc
        simpa [List.isEmpty_iff] using htc
      simp [toolCallParts, hid, htid, ihr]

/-- Claim C3: on a sequence of well-formed human, AI and tool messages,
`convert_messages_to_contents` returns one `Content` per message in order,
mapped as `messageContentSpec` describes; a message of any other type
raises `ValueError`. -/
theorem convert_messages_to_contents_spec (msgs rest : List GMessage)
    (h : ∀ m ∈ msgs, messageWF m = true) :
    convert_messages_to_contents msgs = .ok (msgs.map messageContentSpec) ∧
    convert_messages_to_contents (msgs ++ .other :: rest) = .error .valueError := by
  induction msgs with
  | nil => exact ⟨rfl, rfl⟩
  | cons m ms ih =>
    have hm := h m (List.mem_cons_self m ms)
    obtain ⟨ih1, ih2⟩ := ih fun x hx => h x (List.mem_cons_of_mem m hx)
    cases m with
    | human content =>
      obtain ⟨ps, hps⟩ := cbmpOk_ok (by simpa [messageWF] using hm)
      refine ⟨?_, ?_⟩
      · simp [convert_messages_to_contents, hps, ih1, messageContentSpec, partsSpec]
      · simp [convert_messages_to_contents, hps, ih2]
    | ai content tool_calls =>
      have hcb : cbmpOk content = true := by
        simp [messageWF] at hm
        exact hm.1
      have hall : ∀ tc ∈ tool_calls, toolIdOk tc = true := by
        simp [messageWF, List.all_eq_true] at hm
        exact hm.2
      obtain ⟨ps, hps⟩ := cbmpOk_ok hcb
      have htc := toolCallParts_eq_ok tool_calls hall
      refine ⟨?_, ?_⟩
      · simp [convert_messages_to_contents, hps, htc, ih1, messageContentSpec, partsSpec]
      · simp [convert_messages_to_contents, hps, htc, ih2]
    | tool content name tool_call_id =>
      obtain ⟨s, hs⟩ : ∃ s, content = .str s := by
        revert hm
        unfold messageWF
        cases content <;> simp
      obtain ⟨n, hn, hne⟩ : ∃ n, name = some n ∧ n ≠ [] := by
        revert hm
        unfold messageWF
        cases name with
        | none => simp
        | some n => simp [List.isEmpty_iff]
      subst hs hn
      refine ⟨?_, ?_⟩
      · simp [convert_messages_to_contents, hne, ih1, messageContentSpec]
      · simp [convert_messages_to_contents, hne, ih2]
    | other => simp [messageWF] at hm

/-- Witness for claim C3: a concrete human, AI (with one tool call) and tool message
convert to the three expected contents. -/
theorem convert_messages_to_contents_spec_witness :
    convert_messages_to_contents
        [.human (.str "hi".data),
          .ai (.str "ok".data) [⟨"f".data, [], some "1".data⟩],
          .tool (.str "out".data) (some "f".data) "1".data] =
      .ok ([.human (.str "hi".data),
          .ai (.str "ok".data) [⟨"f".data, [], some "1".data⟩],
          .tool (.str "out".data) (some "f".data) "1".data].map messageContentSpec) :=
  (convert_messages_to_contents_spec
    [.human (.str "hi".data),
      .ai (.str "ok".data) [⟨"f".data, [], some "1".data⟩],
      .tool (.str "out".data) (some "f".data) "1".data]
    [] (by decide)).1

/-- Claim C8: the message-format converter is deterministic and stateless: it is a
pure function of its input, so equal input sequences give equal outputs and
the inputs are left unmodified. -/
theorem convert_messages_to_contents_deterministic (msgs1 msgs2 : List GMessage)
    (h : msgs1 = msgs2) :
    convert_messages_to_contents msgs1 = convert_messages_to_contents msgs2 := by
  rw [h]

/-- Witness for claim C8: two invocations on the same concrete message list agree. -/
theorem convert_messages_to_contents_deterministic_witness :
    convert_messages_to_contents [.human (.str "hi".data)] =
      convert_messages_to_contents [.human (.str "hi".data)] :=
  convert_messages_to_contents_deterministic
    [.human (.str "hi".data)] [.human (.str "hi".data)] rfl

theorem multi_text_parts_nonempty (items : List ContentItem) :
    ∀ parts : List Part, multi_content_to_part items = .ok parts →
      ∀ t : Str, Part.text t ∈ parts → t ≠ [] := by
  induction items with
  | nil =>
    intro parts hp t ht
    cases hp
    simp at ht
  | cons i rest ih =>
    intro parts hp t ht
    cases i with
    | text t0 =>
      by_cases h0 : t0 = []
      · rw [show multi_content_to_part (.text t0 :: rest) = multi_content_to_part rest by
          simp [multi_content_to_part, h0]] at hp
        exact ih parts hp t ht
      · cases hrest : multi_content_to_part rest with
        | ok ps =>
          simp only [multi_content_to_part, if_pos h0, hrest] at hp
          cases hp
          rcases List.mem_cons.mp ht with he | hm
          · cases he
            exact h0
          · exact ih ps hrest t hm
        | error e =>
          simp only [multi_content_to_part, if_pos h0, hrest] at hp
          cases hp
    | image_url url =>
      cases hurl : parseImagePart url with
      | ok p =>
        cases hrest : multi_content_to_part rest with
        | ok ps =>
          simp only [multi_content_to_part, hurl, hrest] at hp
          cases hp
          rcases List.mem_cons.mp ht with he | hm
          · subst he
            cases hq : splitOnce ',' url with
            | none => simp [parseImagePart, hq] at hurl
            | some q =>
              cases hq2 : splitOnce ':' q.1 with
              | none => simp [parseImagePart, hq, hq2] at hurl
              | some q2 =>
                cases hb : b64decode q.2 with
                | none => simp [parseImagePart, hq, hq2, hb] at hurl
                | some data => simp [parseImagePart, hq, hq2, hb] at hurl
          · exact ih ps hrest t hm
        | error e =>
          simp only [multi_content_to_part, hurl, hrest] at hp
          cases hp
      | error e =>
        simp only [multi_content_to_part, hurl] at hp
        cases hp
    | file uri mime_type =>
      cases hrest : multi_content_to_part rest with
      | ok ps =>
        simp only [multi_content_to_part, hrest] at hp
        cases hp
        rcases List.mem_cons.mp ht with he | hm
        · cases he
        · exact ih ps hrest t hm
      | error e =>
        simp only [multi_content_to_part, hrest] at hp
        cases hp
    | other ty =>
      simp only [multi_content_to_part] at hp
      cases hp

/-- Claim C10: the converter emits no empty text part: empty string content and a
text item with empty text contribute nothing, and every text part in any
successful output of `convert_base_message_to_parts` or
`multi_content_to_part` has non-empty text. -/
theorem no_empty_text_parts :
    convert_base_message_to_parts (.str []) = .ok [] ∧
    (∀ rest : List ContentItem,
      multi_content_to_part (.text [] :: rest) = multi_content_to_part rest) ∧
    (∀ (items : List ContentItem) (parts : List Part),
      multi_content_to_part items = .ok parts →
        ∀ t : Str, Part.text t ∈ parts → t ≠ []) ∧
    (∀ (content : MsgContent) (parts : List Part),
      convert_base_message_to_parts content = .ok parts →
        ∀ t : Str, Part.text t ∈ parts → t ≠ []) := by
  refine ⟨rfl, fun rest => by simp [multi_content_to_part],
    fun items parts hp t ht => multi_text_parts_nonempty items parts hp t ht,
    fun content parts hp t ht => ?_⟩
  cases content with
  | str s =>
    by_cases hs : s = []
    · subst hs
      cases hp
      simp at ht
    · simp only [convert_base_message_to_parts, if_pos hs] at hp
      cases hp
      rcases List.mem_cons.mp ht with he | hm
      · cases he
        exact hs
      · simp at hm
  | list items => exact multi_text_parts_nonempty items parts hp t ht
  | other => cases hp

/-- Witness for claim C10: a concrete conversion whose output text part is non-empty,
with the empty-text dict dropped. -/
theorem no_empty_text_parts_witness :
    multi_content_to_part [.text "hi".data, .text [], .file "u".data "m".data] =
      .ok [.text "hi".data, .fileData "u".data "m".data] ∧
    ("hi".data : Str) ≠ [] :=
  ⟨by decide,
    no_empty_text_parts.2.2.1 [.text "hi".data, .text [], .file "u".data "m".data]
      [.text "hi".data, .fileData "u".data "m".data] (by decide)
      "hi".data (by simp)⟩

/-- Claim C2: on an AI answer with non-empty string content containing context
tags, `add_citations` runs the linear pipeline: split into sentences, one
citation-model call on the prompt messages, validation against the source
messages and sentences, and a merge of sentences with the validated
citations as the new content. -/
theorem add_citations_pipeline_spec (model : List CMessage → Citations)
    (messages : List CMessage) (message : AIMessageIn) (system_prompt : Str)
    (h1 : message.content ≠ [])
    (h2 : contains_context_tags message.content = true) :
    add_citations model messages message system_prompt =
      .merged (merge_citations (split_into_sentences message.content)
        (validate_citations (model (mkCitationMessages messages message system_prompt))
          messages (split_into_sentences message.content))) := by
  rw [add_citations, if_neg h1, if_neg (by simp [h2])]

/-- Witness for claim C2: on a concrete answer containing a context tag the result is
the merged pipeline output. -/
theorem add_citations_pipeline_spec_witness :
    add_citations (fun _ => ⟨[⟨0, "sun".data, "a".data⟩]⟩)
        [⟨"human".data, .str "<context key=\"a\">sun</context>".data, none⟩]
        ⟨"<context key=\"a\">sun</context> It is sunny.".data, none⟩ "cite".data =
      .merged (merge_citations
        (split_into_sentences "<context key=\"a\">sun</context> It is sunny.".data)
        (validate_citations
          ((fun (_ : List CMessage) => Citations.mk [⟨0, "sun".data, "a".data⟩])
            (mkCitationMessages
              [⟨"human".data, .str "<context key=\"a\">sun</context>".data, none⟩]
              ⟨"<context key=\"a\">sun</context> It is sunny.".data, none⟩ "cite".data))
          [⟨"human".data, .str "<context key=\"a\">sun</context>".data, none⟩]
          (split_into_sentences "<context key=\"a\">sun</context> It is sunny.".data))) :=
  add_citations_pipeline_spec (fun _ => ⟨[⟨0, "sun".data, "a".data⟩]⟩)
    [⟨"human".data, .str "<context key=\"a\">sun</context>".data, none⟩]
    ⟨"<context key=\"a\">sun</context> It is sunny.".data, none⟩ "cite".data
    (by decide) (by decide)

/-- Claim C9: when the answer's content is empty or its own text contains no
context tag, `add_citations` returns the content unchanged, for every
citation model, source message list and system prompt, so no model call can
influence the result and the gate inspects the answer text only. -/
theorem add_citations_skip_spec (model : List CMessage → Citations)
    (messages : List CMessage) (message : AIMessageIn) (system_prompt : Str)
    (h : message.content = [] ∨ contains_context_tags message.content = false) :
    add_citations model messages message system_prompt = .str message.content := by
  rcases h with h | h
  · rw [add_citations, if_pos h]
  · by_cases h0 : message.content = []
    · rw [add_citations, if_pos h0]
    · rw [add_citations, if_neg h0, if_pos (by simp [h])]

/-- Witness for claim C9: a concrete answer without context tags is returned
unchanged even though the source messages contain a context tag and the
model would return a citation. -/
theorem add_citations_skip_spec_witness :
    add_citations (fun _ => ⟨[⟨0, "sun".data, "a".data⟩]⟩)
        [⟨"human".data, .str "<context key=\"a\">sun</context>".data, none⟩]
        ⟨"It is sunny.".data, none⟩ "cite".data =
      .str "It is sunny.".data :=
  add_citations_skip_spec (fun _ => ⟨[⟨0, "sun".data, "a".data⟩]⟩)
    [⟨"human".data, .str "<context key=\"a\">sun</context>".data, none⟩]
    ⟨"It is sunny.".data, none⟩ "cite".data (Or.inr (by decide))

end LangchainB12
